import Mathlib

/-!
Verification development for `train_single_scale.py` (SONIC-GAN).

The file shallowly embeds the single-scale GAN training orchestrator as a
deterministic state machine over symbolic tensors.  Randomness consumption is
modelled by a counter: every call to `generate_spatial_noise` and every
`rand`-mode `draw_concat` invocation consumes one fresh index, so two distinct
draws are distinct symbolic tensors.  Python local variables that are assigned
inside loops (`noise`, `prev`, `z_prev`, `fake`, `Z_opt`, `rec_loss`) are
`Option`-valued: reading `none` models a `NameError` and aborts the run.
Side effects that matter to the claims (draw_concat calls, assignments and
reads of `opt.noise_amp`, backward passes of the reconstruction loss, and the
final checkpointing) are recorded in an event trace, newest event first.
-/

namespace SonicGAN

/-- The `mode` argument of `draw_concat`: `"rand"` or `"rec"`. -/
inductive Mode
  | rand
  | recm
deriving DecidableEq

/-- Symbolic (image-space) tensors appearing in `train_single_scale`.
`real` is `reals[current_scale]`; `argIn` is the `input_from_prev_scale`
argument; `zeros nc h w` is `torch.zeros([1, nc, h, w])`;
`noiseDraw nc h w k` is the `k`-th random draw, produced by
`generate_spatial_noise([1, nc, h, w])`; `drawRand k` is the output of a
`rand`-mode `draw_concat` call that consumed random draw `k`; `drawRec` is
the (deterministic) `rec`-mode `draw_concat` output; `padN`/`padI` are
`pad_noise`/`pad_image`; `g2t` is `group_to_token`; `interp` is the bilinear
`interpolate` to `real.shape[-2:]`. -/
inductive PT
  | real
  | argIn
  | zeros (nc h w : ℕ)
  | noiseDraw (nc h w k : ℕ)
  | drawRand (k : ℕ)
  | drawRec
  | padN (t : PT)
  | padI (t : PT)
  | g2t (t : PT)
  | interp (t : PT)
deriving DecidableEq

/-- Symbolic value held by `opt.noise_amp`: the literal `1` (scale 0) or the
output of `update_noise_amplitude(z_prev, real, opt)` on the interpolated
`rec`-mode replay `z` and the real level `r`. -/
inductive Amp
  | one
  | calib (z r : PT)
deriving DecidableEq

/-- Symbolic tensors built from an amplitude: `combine a n p` is
`a * n + p` (the noise combination of line 213 and the `Z_opt` update of
line 265); `gen n p` is `G(n, p, temperature=1)`. -/
inductive FT
  | pure (t : PT)
  | combine (a : Amp) (n p : FT)
  | gen (n p : FT)
deriving DecidableEq

/-- Symbolic reconstruction loss: `RL.zero` is `torch.zeros([])`;
`RL.mse alpha pred target` is `alpha * F.mse_loss(pred, target)`. -/
inductive RL
  | zero
  | mse (alpha : ℚ) (pred : FT) (target : PT)
deriving DecidableEq

/-- Program points that read `opt.noise_amp`: the noise combination
(line 213), the `Z_opt` update (line 265) and the periodic logging
(line 286). -/
inductive Site
  | combineNoise
  | zOptC
  | logAmp
deriving DecidableEq

/-- Recorded side effects, newest first in the trace. -/
inductive Event
  | drawCall (m : Mode) (ep j k : ℕ)
  | ampAssign (ep j : ℕ) (a : Amp)
  | ampRead (site : Site) (a : Amp)
  | backwardRec (l : RL)
  | saveZopt (t : PT)
  | saveNets
deriving DecidableEq

/-- The only modelled failure: a Python `NameError` from reading a local
variable (or `opt.noise_amp`) that was never assigned. -/
inductive Err
  | undefinedLocal
deriving DecidableEq

/-- State of one `torch.optim.lr_scheduler.MultiStepLR`. -/
structure Sched where
  lastEpoch : ℕ
  lr : ℚ
deriving DecidableEq

/-- The configuration facts `train_single_scale` reads: `currentScale` is
`len(generators)`, `nzx`/`nzy` are `real.shape[2]`/`real.shape[3]`, the rest
are the fields of `opt` the claims touch. -/
structure Cfg where
  currentScale : ℕ
  niter : ℕ
  dsteps : ℕ
  gsteps : ℕ
  tokenInsert : ℤ
  alpha : ℚ
  ncCurrent : ℕ
  nzx : ℕ
  nzy : ℕ
  lrD : ℚ
  lrG : ℚ
  gamma : ℚ
deriving DecidableEq

/-- The mutable state of one `train_single_scale` call: the randomness
counter, `opt.noise_amp`, the loop-local variables, the
`input_from_prev_scale` binding, `z_opt`, both schedulers and the event
trace. -/
structure St where
  rng : ℕ
  amp : Option Amp
  prev : Option PT
  zprev : Option PT
  noise : Option FT
  fake : Option FT
  zOptV : Option FT
  recLoss : Option RL
  inFromPrev : PT
  zopt : PT
  schedD : Sched
  schedG : Sched
  trace : List Event
deriving DecidableEq

/-- Numeric model of `F.mse_loss(a, b)`: mean of squared element
differences over the flattened tensors (exact rational arithmetic in place
of floats). -/
def mse_loss (a b : List ℚ) : ℚ :=
  ((List.zipWith (fun x y => (x - y) ^ 2) a b).sum) / (a.length : ℚ)

/-- Embedding of `update_noise_amplitude` (lines 28-43):
`RMSE = torch.sqrt(F.mse_loss(real, z_prev)); return opt.noise_update * RMSE`.
The square root is an uninterpreted parameter `sq` (exact real square root is
not computable; nothing about the claims needs its properties). -/
def update_noise_amplitude (sq : ℚ → ℚ) (noise_update : ℚ) (z_prev real : List ℚ) : ℚ :=
  let RMSE := sq (mse_loss real z_prev)
  noise_update * RMSE

/-- The token-group transform guard of lines 162-163, 182-183 and 204-205:
`group_to_token` is applied exactly when `current_scale == opt.token_insert + 1`. -/
def applyTT (cfg : Cfg) (t : PT) : PT :=
  if (cfg.currentScale : ℤ) = cfg.tokenInsert + 1 then PT.g2t t else t

/-- One `scheduler.step()` of `MultiStepLR(optimizer, milestones=[1600, 2500],
gamma=opt.gamma)` (lines 101-106): the epoch counter advances and the learning
rate is multiplied by gamma exactly when the new counter hits a milestone. -/
def schedStep (g : ℚ) (s : Sched) : Sched :=
  { lastEpoch := s.lastEpoch + 1
    lr := if s.lastEpoch + 1 = 1600 ∨ s.lastEpoch + 1 = 2500 then s.lr * g else s.lr }

/-- Iterated scheduler stepping. -/
def schedStepN (g : ℚ) : ℕ → Sched → Sched
  | 0, s => s
  | n + 1, s => schedStep g (schedStepN g n s)

/-- Number of milestones `{1600, 2500}` with milestone `≤ n`. -/
def msCount (n : ℕ) : ℕ :=
  (if 1600 ≤ n then 1 else 0) + (if 2500 ≤ n then 1 else 0)

/-- The branch of the D-step that prepares `prev` (and on the very first
iteration also `z_prev` and `opt.noise_amp`), lines 137-210.  `ep`/`j` are the
epoch and D-step indices.  On `(ep, j) = (0, 0)`: at scale 0 lines 141-146
(zero seed, `input_from_prev_scale` reassigned, amplitude set to 1), at later
scales lines 149-189 (`rand` draw for `prev`, `rec` draw for `z_prev`, both
transformed/interpolated, amplitude calibrated before `z_prev` is padded).
Otherwise lines 191-210: a fresh `rand` draw, transformed, interpolated,
padded. -/
def dStepBranch (cfg : Cfg) (ep j : ℕ) (s : St) : St :=
  if ep = 0 ∧ j = 0 then
    if cfg.currentScale = 0 then
      { s with
        inFromPrev := PT.zeros cfg.ncCurrent cfg.nzx cfg.nzy
        prev := some (PT.padI (PT.zeros cfg.ncCurrent cfg.nzx cfg.nzy))
        zprev := some (PT.padN (PT.zeros cfg.ncCurrent cfg.nzx cfg.nzy))
        amp := some Amp.one
        trace := Event.ampAssign ep j Amp.one :: s.trace }
    else
      { s with
        rng := s.rng + 1
        prev := some (PT.padI (PT.interp (applyTT cfg (PT.drawRand s.rng))))
        zprev := some (PT.padI (PT.interp (applyTT cfg PT.drawRec)))
        amp := some (Amp.calib (PT.interp (applyTT cfg PT.drawRec)) PT.real)
        trace := Event.ampAssign ep j (Amp.calib (PT.interp (applyTT cfg PT.drawRec)) PT.real)
          :: Event.drawCall Mode.recm ep j 0
          :: Event.drawCall Mode.rand ep j s.rng
          :: s.trace }
  else
    { s with
      rng := s.rng + 1
      prev := some (PT.padI (PT.interp (applyTT cfg (PT.drawRand s.rng))))
      trace := Event.drawCall Mode.rand ep j s.rng :: s.trace }

/-- Rest of the D-step body (lines 213-244): `noise = opt.noise_amp * noise_
+ prev` and `fake = G(noise.detach(), prev)`, reading `opt.noise_amp` and
`prev`. -/
def dStepRead (nE : PT) (s1 : St) : Except (Err × St) St :=
  match s1.amp, s1.prev with
  | some a, some p =>
    Except.ok { s1 with
      noise := some (FT.combine a (FT.pure nE) (FT.pure p))
      fake := some (FT.gen (FT.combine a (FT.pure nE) (FT.pure p)) (FT.pure p))
      trace := Event.ampRead Site.combineNoise a :: s1.trace }
  | none, _ => Except.error (Err.undefinedLocal, s1)
  | some _, none => Except.error (Err.undefinedLocal, s1)

/-- One iteration of the discriminator loop (lines 127-244). -/
def dStep (cfg : Cfg) (ep j : ℕ) (nE : PT) (s : St) : Except (Err × St) St :=
  dStepRead nE (dStepBranch cfg ep j s)

/-- The reconstruction branch of the generator step (lines 262-278): with
`opt.alpha != 0`, `Z_opt = opt.noise_amp * z_opt + z_prev`, `G_rec =
G(Z_opt.detach(), z_prev)` and `rec_loss = alpha * F.mse_loss(G_rec, real)`
is backpropagated; otherwise `rec_loss = torch.zeros([])` and
`Z_opt = z_opt`. -/
def gStepRec (cfg : Cfg) (s1 : St) : Except (Err × St) St :=
  if cfg.alpha ≠ 0 then
    match s1.amp, s1.zprev with
    | some a, some zp =>
      Except.ok { s1 with
        zOptV := some (FT.combine a (FT.pure s1.zopt) (FT.pure zp))
        recLoss := some (RL.mse cfg.alpha
          (FT.gen (FT.combine a (FT.pure s1.zopt) (FT.pure zp)) (FT.pure zp)) PT.real)
        trace := Event.backwardRec (RL.mse cfg.alpha
            (FT.gen (FT.combine a (FT.pure s1.zopt) (FT.pure zp)) (FT.pure zp)) PT.real)
          :: Event.ampRead Site.zOptC a :: s1.trace }
    | none, _ => Except.error (Err.undefinedLocal, s1)
    | some _, none => Except.error (Err.undefinedLocal, s1)
  else
    Except.ok { s1 with recLoss := some RL.zero, zOptV := some (FT.pure s1.zopt) }

/-- One iteration of the generator loop (lines 251-280): reads `noise` and
`prev` for `fake = G(noise.detach(), prev.detach())`, then runs the
reconstruction branch. -/
def gStep (cfg : Cfg) (s : St) : Except (Err × St) St :=
  match s.noise, s.prev with
  | some n, some p => gStepRec cfg { s with fake := some (FT.gen n (FT.pure p)) }
  | none, _ => Except.error (Err.undefinedLocal, s)
  | some _, none => Except.error (Err.undefinedLocal, s)

/-- Sequencing of fallible stages. -/
def seqE (r : Except (Err × St) St) (f : St → Except (Err × St) St) :
    Except (Err × St) St :=
  match r with
  | Except.error e => Except.error e
  | Except.ok s => f s

/-- Scalar logging block (lines 283-292): when `step % 10 == 0` it reads
`opt.noise_amp` and `rec_loss`. -/
def diagLog (cfg : Cfg) (ep : ℕ) (s : St) : Except (Err × St) St :=
  if (cfg.currentScale * cfg.niter + ep) % 10 = 0 then
    match s.amp, s.recLoss with
    | some a, some _ =>
      Except.ok { s with trace := Event.ampRead Site.logAmp a :: s.trace }
    | none, _ => Except.error (Err.undefinedLocal, s)
    | some _, none => Except.error (Err.undefinedLocal, s)
  else Except.ok s

/-- Rendering block (lines 295-327): when `epoch % 500 == 0` or
`epoch == opt.niter - 1` it reads `fake`, `Z_opt` and `z_prev`. -/
def diagRender (cfg : Cfg) (ep : ℕ) (s : St) : Except (Err × St) St :=
  if ep % 500 = 0 ∨ ep = cfg.niter - 1 then
    match s.fake, s.zOptV, s.zprev with
    | some _, some _, some _ => Except.ok s
    | none, _, _ => Except.error (Err.undefinedLocal, s)
    | some _, none, _ => Except.error (Err.undefinedLocal, s)
    | some _, some _, none => Except.error (Err.undefinedLocal, s)
  else Except.ok s

/-- Both diagnostic blocks in program order. -/
def diag (cfg : Cfg) (ep : ℕ) (s : St) : Except (Err × St) St :=
  seqE (diagLog cfg ep s) (diagRender cfg ep)

/-- The discriminator loop `for j in range(opt.Dsteps)` with `fuel` remaining
iterations, current index `j`. -/
def dLoop (cfg : Cfg) (ep : ℕ) (nE : PT) : ℕ → ℕ → St → Except (Err × St) St
  | _, 0, s => Except.ok s
  | j, fuel + 1, s =>
    match dStep cfg ep j nE s with
    | Except.error e => Except.error e
    | Except.ok s2 => dLoop cfg ep nE (j + 1) fuel s2

/-- The generator loop `for j in range(opt.Gsteps)`. -/
def gLoop (cfg : Cfg) : ℕ → St → Except (Err × St) St
  | 0, s => Except.ok s
  | fuel + 1, s =>
    match gStep cfg s with
    | Except.error e => Except.error e
    | Except.ok s2 => gLoop cfg fuel s2

/-- One epoch of the training loop (lines 116-331): fresh padded noise
`noise_`, the D loop, the G loop, the diagnostics, then one step of each
scheduler. -/
def epochBody (cfg : Cfg) (ep : ℕ) (s : St) : Except (Err × St) St :=
  seqE (dLoop cfg ep (PT.padN (PT.noiseDraw cfg.ncCurrent cfg.nzx cfg.nzy s.rng)) 0
      cfg.dsteps { s with rng := s.rng + 1 })
    (fun s2 => seqE (gLoop cfg cfg.gsteps s2)
      (fun s3 => seqE (diag cfg ep s3)
        (fun s4 => Except.ok { s4 with
          schedD := schedStep cfg.gamma s4.schedD
          schedG := schedStep cfg.gamma s4.schedG })))

/-- The epoch loop `for epoch in tqdm(range(opt.niter))`. -/
def epochLoop (cfg : Cfg) : ℕ → ℕ → St → Except (Err × St) St
  | _, 0, s => Except.ok s
  | ep, fuel + 1, s =>
    match epochBody cfg ep s with
    | Except.error e => Except.error e
    | Except.ok s2 => epochLoop cfg (ep + 1) fuel s2

/-- Initial `z_opt` (lines 108-113): a fresh random draw (consuming random
index 0) padded by `pad_noise` at scale 0, a padded zero tensor at later
scales. -/
def zOptInit (cfg : Cfg) : PT :=
  if cfg.currentScale = 0 then
    PT.padN (PT.noiseDraw cfg.ncCurrent cfg.nzx cfg.nzy 0)
  else
    PT.padN (PT.zeros cfg.ncCurrent cfg.nzx cfg.nzy)

/-- Random draws consumed before the epoch loop: one iff scale 0. -/
def rngInit (cfg : Cfg) : ℕ :=
  if cfg.currentScale = 0 then 1 else 0

/-- State at entry of the epoch loop: no loop-local variable is defined,
`opt.noise_amp` is unset, both schedulers start at their configured rates. -/
def initSt (cfg : Cfg) (arg : PT) : St :=
  { rng := rngInit cfg
    amp := none
    prev := none
    zprev := none
    noise := none
    fake := none
    zOptV := none
    recLoss := none
    inFromPrev := arg
    zopt := zOptInit cfg
    schedD := { lastEpoch := 0, lr := cfg.lrD }
    schedG := { lastEpoch := 0, lr := cfg.lrG }
    trace := [] }

/-- The whole call (lines 108-337): the epoch loop, then the terminal
checkpointing `torch.save(z_opt, ...); save_networks(G, D, z_opt, opt)`.
The `ok` state's `zopt` and `inFromPrev` fields are the values returned as
`z_opt` and `input_from_prev_scale`. -/
def run (cfg : Cfg) (arg : PT) : Except (Err × St) St :=
  match epochLoop cfg 0 cfg.niter (initSt cfg arg) with
  | Except.error e => Except.error e
  | Except.ok s =>
    Except.ok { s with trace := Event.saveNets :: Event.saveZopt s.zopt :: s.trace }

/-- The state a result carries: the final state of a completed run, or the
state at the point of abort. -/
def carrier : Except (Err × St) St → St
  | Except.ok s => s
  | Except.error es => es.2

/-- The final state of a completed run, `none` on abort. -/
def okSt : Except (Err × St) St → Option St
  | Except.ok s => some s
  | Except.error _ => none

/-- Boolean check on the final state of a completed run, default on abort. -/
def onOk (f : St → Bool) (d : Bool) : Except (Err × St) St → Bool
  | Except.ok s => f s
  | Except.error _ => d

/-- Boolean check on the state at the point of abort, default on success. -/
def onErr (f : St → Bool) (d : Bool) : Except (Err × St) St → Bool
  | Except.ok _ => d
  | Except.error es => f es.2

/-- Boolean check on the carried state, success or abort. -/
def onAll (f : St → Bool) (r : Except (Err × St) St) : Bool :=
  f (carrier r)

/-- `rand`-mode draw_concat events in a trace. -/
def isRand : Event → Bool
  | Event.drawCall Mode.rand _ _ _ => true
  | _ => false

/-- Number of `rand`-mode draw_concat calls recorded in a trace. -/
def randCalls (tr : List Event) : ℕ := (tr.filter isRand).length

/-- Membership test for `rand`-mode draw_concat calls of epoch `e`. -/
def isRandEp (e : ℕ) : Event → Bool
  | Event.drawCall Mode.rand e2 _ _ => decide (e2 = e)
  | _ => false

/-- Number of `rand`-mode draw_concat calls recorded for epoch `e`. -/
def randCallsInEpoch (tr : List Event) (e : ℕ) : ℕ :=
  (tr.filter (isRandEp e)).length

/-- The `(epoch, j, value)` list of `opt.noise_amp` assignments in a trace. -/
def ampAssigns (tr : List Event) : List (ℕ × ℕ × Amp) :=
  tr.filterMap (fun ev => match ev with
    | Event.ampAssign e j a => some (e, j, a)
    | _ => none)

/-- The values seen by the `opt.noise_amp` reads recorded in a trace. -/
def ampReads (tr : List Event) : List Amp :=
  tr.filterMap (fun ev => match ev with
    | Event.ampRead _ a => some a
    | _ => none)

/-- The tensors persisted by `torch.save(z_opt, ...)` in a trace. -/
def savedZopt (tr : List Event) : List PT :=
  tr.filterMap (fun ev => match ev with
    | Event.saveZopt t => some t
    | _ => none)

/-- Checkpointing events. -/
def isSave : Event → Bool
  | Event.saveZopt _ => true
  | Event.saveNets => true
  | _ => false

/-- A trace with no checkpointing event. -/
def saveFreeB (tr : List Event) : Bool := tr.all (fun ev => !isSave ev)

/-- The value `opt.noise_amp` receives on the first D-step of the first
epoch: 1 at scale 0, otherwise the calibrator applied to the interpolated
`rec`-mode replay and the real level. -/
def ampInit (cfg : Cfg) : Amp :=
  if cfg.currentScale = 0 then Amp.one
  else Amp.calib (PT.interp (applyTT cfg PT.drawRec)) PT.real

/-- The claim-C3 check: exactly one `opt.noise_amp` assignment, on the first
D-step of the first epoch, to `ampInit`; the final amplitude is that value;
every recorded read saw that value. -/
def ampCheck (cfg : Cfg) (r : Except (Err × St) St) : Bool :=
  decide (ampAssigns (carrier r).trace = [(0, 0, ampInit cfg)]) &&
  decide ((carrier r).amp = some (ampInit cfg)) &&
  (ampReads (carrier r).trace).all (fun a => decide (a = ampInit cfg))

/-- The claim-C8 check on a completed run: the two checkpointing events are
the final (newest) events, the persisted tensor is the returned `z_opt`, and
no other checkpointing event exists. -/
def terminalSaves (s : St) : Bool :=
  match s.trace with
  | Event.saveNets :: Event.saveZopt z :: rest => decide (z = s.zopt) && saveFreeB rest
  | _ => false

/-- Concrete configuration of a minimal successful scale-0 run
(niter = Dsteps = Gsteps = 1, alpha = 0). -/
def cfgBase : Cfg := ⟨0, 1, 1, 1, -5, 0, 1, 1, 1, 1, 1, 1/2⟩

/-- Concrete scale-1 configuration with two D-steps in a single epoch. -/
def cfgTwoD : Cfg := ⟨1, 1, 2, 1, -5, 0, 1, 2, 2, 1, 1, 1/2⟩

/-- Concrete configuration with `Dsteps = 0`, `Gsteps = 1`, `niter = 0`. -/
def cfgNoD : Cfg := ⟨0, 0, 0, 1, -5, 0, 1, 1, 1, 1, 1, 1/2⟩

/-- Concrete configuration with `Dsteps = 0`, `Gsteps = 1`, `niter = 1`. -/
def cfgNoDTrain : Cfg := ⟨0, 1, 0, 1, -5, 0, 1, 1, 1, 1, 1, 1/2⟩

/-- Concrete configuration with nonzero reconstruction weight `alpha = 1`. -/
def cfgAlpha : Cfg := ⟨1, 1, 1, 1, -5, 1, 1, 2, 2, 1, 1, 1/2⟩

/-- A concrete mid-training state with `opt.noise_amp` set (for witnesses). -/
def stAmp : St := { initSt cfgTwoD PT.argIn with amp := some Amp.one }

/-- A concrete state entering the generator step, all its inputs defined. -/
def stG : St :=
  { initSt cfgAlpha PT.argIn with
    noise := some (FT.pure PT.real)
    prev := some PT.real
    amp := some Amp.one
    zprev := some (PT.padI PT.real) }

/-- Invariant of the phase before the first D-step of the first epoch has
run: no loop side effect has happened yet. -/
structure InvA (cfg : Cfg) (arg : PT) (s : St) : Prop where
  zopt : s.zopt = zOptInit cfg
  saveFree : saveFreeB s.trace = true
  ifp : s.inFromPrev = arg
  amp : s.amp = none
  assigns : ampAssigns s.trace = []
  reads : ampReads s.trace = []

/-- Invariant of the phase after the first D-step of the first epoch:
`opt.noise_amp` was assigned exactly once, at `(0, 0)`, to `ampInit cfg`,
never reassigned, and every read saw that value; `z_opt` is its initial
value; nothing was checkpointed; `input_from_prev_scale` is the call
argument at positive scales and the unpadded zero seed at scale 0. -/
structure InvB (cfg : Cfg) (arg : PT) (s : St) : Prop where
  zopt : s.zopt = zOptInit cfg
  saveFree : saveFreeB s.trace = true
  ifpPos : 0 < cfg.currentScale → s.inFromPrev = arg
  ifpZero : cfg.currentScale = 0 →
    s.inFromPrev = PT.zeros cfg.ncCurrent cfg.nzx cfg.nzy
  amp : s.amp = some (ampInit cfg)
  assigns : ampAssigns s.trace = [(0, 0, ampInit cfg)]
  reads : ∀ a ∈ ampReads s.trace, a = ampInit cfg

/-- Either phase. -/
def Inv (cfg : Cfg) (arg : PT) (s : St) : Prop :=
  InvA cfg arg s ∨ InvB cfg arg s

/-- What every training step except the very first D-step preserves: `z_opt`,
the schedulers, `input_from_prev_scale`, `opt.noise_amp` and its assignment
history, checkpoint-freeness of the new events, and the fact that any newly
recorded amplitude read saw the current amplitude. -/
def StepFrame (s1 s2 : St) : Prop :=
  s2.zopt = s1.zopt ∧ s2.schedD = s1.schedD ∧ s2.schedG = s1.schedG ∧
  s2.inFromPrev = s1.inFromPrev ∧ s2.amp = s1.amp ∧
  ampAssigns s2.trace = ampAssigns s1.trace ∧
  saveFreeB s2.trace = saveFreeB s1.trace ∧
  (∀ a, a ∈ ampReads s2.trace → a ∈ ampReads s1.trace ∨ s1.amp = some a)

theorem carrier_ok (s : St) : carrier (Except.ok s) = s := rfl

theorem carrier_error (e : Err × St) : carrier (Except.error e : Except (Err × St) St) = e.2 := rfl

theorem ampAssigns_nil : ampAssigns [] = [] := rfl

theorem ampAssigns_draw (m : Mode) (e j k : ℕ) (tr : List Event) :
    ampAssigns (Event.drawCall m e j k :: tr) = ampAssigns tr := rfl

theorem ampAssigns_assign (e j : ℕ) (a : Amp) (tr : List Event) :
    ampAssigns (Event.ampAssign e j a :: tr) = (e, j, a) :: ampAssigns tr := rfl

theorem ampAssigns_read (st : Site) (a : Amp) (tr : List Event) :
    ampAssigns (Event.ampRead st a :: tr) = ampAssigns tr := rfl

theorem ampAssigns_back (l : RL) (tr : List Event) :
    ampAssigns (Event.backwardRec l :: tr) = ampAssigns tr := rfl

theorem ampAssigns_saveZ (t : PT) (tr : List Event) :
    ampAssigns (Event.saveZopt t :: tr) = ampAssigns tr := rfl

theorem ampAssigns_saveN (tr : List Event) :
    ampAssigns (Event.saveNets :: tr) = ampAssigns tr := rfl

theorem ampReads_nil : ampReads [] = [] := rfl

theorem ampReads_draw (m : Mode) (e j k : ℕ) (tr : List Event) :
    ampReads (Event.drawCall m e j k :: tr) = ampReads tr := rfl

theorem ampReads_assign (e j : ℕ) (a : Amp) (tr : List Event) :
    ampReads (Event.ampAssign e j a :: tr) = ampReads tr := rfl

theorem ampReads_read (st : Site) (a : Amp) (tr : List Event) :
    ampReads (Event.ampRead st a :: tr) = a :: ampReads tr := rfl

theorem ampReads_back (l : RL) (tr : List Event) :
    ampReads (Event.backwardRec l :: tr) = ampReads tr := rfl

theorem ampReads_saveZ (t : PT) (tr : List Event) :
    ampReads (Event.saveZopt t :: tr) = ampReads tr := rfl

theorem ampReads_saveN (tr : List Event) :
    ampReads (Event.saveNets :: tr) = ampReads tr := rfl

theorem savedZopt_saveZ (t : PT) (tr : List Event) :
    savedZopt (Event.saveZopt t :: tr) = t :: savedZopt tr := rfl

theorem savedZopt_saveN (tr : List Event) :
    savedZopt (Event.saveNets :: tr) = savedZopt tr := rfl

theorem saveFreeB_nil : saveFreeB [] = true := rfl

theorem saveFreeB_cons (ev : Event) (tr : List Event) :
    saveFreeB (ev :: tr) = (!isSave ev && saveFreeB tr) := rfl

theorem saveFreeB_cons_of (ev : Event) (tr : List Event) (h : isSave ev = false) :
    saveFreeB (ev :: tr) = saveFreeB tr := by
  simp [saveFreeB_cons, h]

theorem saveFree_savedZopt (tr : List Event) (h : saveFreeB tr = true) :
    savedZopt tr = [] := by
  induction tr with
  | nil => rfl
  | cons ev tr ih =>
    rw [saveFreeB_cons, Bool.and_eq_true, Bool.not_eq_true'] at h
    cases ev with
    | saveZopt t => simp [isSave] at h
    | saveNets => simp [isSave] at h
    | drawCall m e j k => exact ih h.2
    | ampAssign e j a => exact ih h.2
    | ampRead st a => exact ih h.2
    | backwardRec l => exact ih h.2

theorem randCalls_rand (e j k : ℕ) (tr : List Event) :
    randCalls (Event.drawCall Mode.rand e j k :: tr) = randCalls tr + 1 := by
  simp [randCalls, List.filter_cons, isRand]

theorem randCalls_recm (e j k : ℕ) (tr : List Event) :
    randCalls (Event.drawCall Mode.recm e j k :: tr) = randCalls tr := by
  simp [randCalls, List.filter_cons, isRand]

theorem randCalls_assign (e j : ℕ) (a : Amp) (tr : List Event) :
    randCalls (Event.ampAssign e j a :: tr) = randCalls tr := by
  simp [randCalls, List.filter_cons, isRand]

theorem randCalls_read (st : Site) (a : Amp) (tr : List Event) :
    randCalls (Event.ampRead st a :: tr) = randCalls tr := by
  simp [randCalls, List.filter_cons, isRand]

theorem stepFrame_refl (s : St) : StepFrame s s :=
  ⟨rfl, rfl, rfl, rfl, rfl, rfl, rfl, fun _ h => Or.inl h⟩

theorem stepFrame_trans {s t u : St} (h1 : StepFrame s t) (h2 : StepFrame t u) :
    StepFrame s u := by
  obtain ⟨z1, d1, g1, i1, a1, s1, f1, r1⟩ := h1
  obtain ⟨z2, d2, g2, i2, a2, s2, f2, r2⟩ := h2
  refine ⟨z2.trans z1, d2.trans d1, g2.trans g1, i2.trans i1, a2.trans a1,
    s2.trans s1, f2.trans f1, fun a ha => ?_⟩
  rcases r2 a ha with h | h
  · exact r1 a h
  · exact Or.inr (a1 ▸ h)

theorem dStepBranch_not00 (cfg : Cfg) (ep j : ℕ) (s : St) (h : ¬(ep = 0 ∧ j = 0)) :
    dStepBranch cfg ep j s =
      { s with
        rng := s.rng + 1
        prev := some (PT.padI (PT.interp (applyTT cfg (PT.drawRand s.rng))))
        trace := Event.drawCall Mode.rand ep j s.rng :: s.trace } := by
  unfold dStepBranch
  rw [if_neg h]

theorem dStepBranch_00_zero (cfg : Cfg) (s : St) (h : cfg.currentScale = 0) :
    dStepBranch cfg 0 0 s =
      { s with
        inFromPrev := PT.zeros cfg.ncCurrent cfg.nzx cfg.nzy
        prev := some (PT.padI (PT.zeros cfg.ncCurrent cfg.nzx cfg.nzy))
        zprev := some (PT.padN (PT.zeros cfg.ncCurrent cfg.nzx cfg.nzy))
        amp := some Amp.one
        trace := Event.ampAssign 0 0 Amp.one :: s.trace } := by
  unfold dStepBranch
  rw [if_pos ⟨rfl, rfl⟩, if_pos h]

theorem dStepBranch_00_pos (cfg : Cfg) (s : St) (h : ¬cfg.currentScale = 0) :
    dStepBranch cfg 0 0 s =
      { s with
        rng := s.rng + 1
        prev := some (PT.padI (PT.interp (applyTT cfg (PT.drawRand s.rng))))
        zprev := some (PT.padI (PT.interp (applyTT cfg PT.drawRec)))
        amp := some (Amp.calib (PT.interp (applyTT cfg PT.drawRec)) PT.real)
        trace := Event.ampAssign 0 0 (Amp.calib (PT.interp (applyTT cfg PT.drawRec)) PT.real)
          :: Event.drawCall Mode.recm 0 0 0
          :: Event.drawCall Mode.rand 0 0 s.rng
          :: s.trace } := by
  unfold dStepBranch
  rw [if_pos ⟨rfl, rfl⟩, if_neg h]

theorem dStepBranch_frame (cfg : Cfg) (ep j : ℕ) (s : St) (h : ¬(ep = 0 ∧ j = 0)) :
    StepFrame s (dStepBranch cfg ep j s) := by
  rw [dStepBranch_not00 cfg ep j s h]
  exact ⟨rfl, rfl, rfl, rfl, rfl, rfl,
    saveFreeB_cons_of _ _ rfl, fun a ha => Or.inl (by simpa [ampReads_draw] using ha)⟩

theorem dStepRead_ok (nE : PT) (s1 : St) (a : Amp) (p : PT)
    (ha : s1.amp = some a) (hp : s1.prev = some p) :
    dStepRead nE s1 = Except.ok { s1 with
      noise := some (FT.combine a (FT.pure nE) (FT.pure p))
      fake := some (FT.gen (FT.combine a (FT.pure nE) (FT.pure p)) (FT.pure p))
      trace := Event.ampRead Site.combineNoise a :: s1.trace } := by
  unfold dStepRead
  rw [ha, hp]

theorem dStepRead_err1 (nE : PT) (s1 : St) (ha : s1.amp = none) :
    dStepRead nE s1 = Except.error (Err.undefinedLocal, s1) := by
  unfold dStepRead
  rw [ha]

theorem dStepRead_err2 (nE : PT) (s1 : St) (a : Amp)
    (ha : s1.amp = some a) (hp : s1.prev = none) :
    dStepRead nE s1 = Except.error (Err.undefinedLocal, s1) := by
  unfold dStepRead
  rw [ha, hp]

theorem dStepRead_frame (nE : PT) (s1 : St) :
    StepFrame s1 (carrier (dStepRead nE s1)) := by
  rcases ha : s1.amp with _ | a
  · rw [dStepRead_err1 nE s1 ha]
    exact stepFrame_refl s1
  · rcases hp : s1.prev with _ | p
    · rw [dStepRead_err2 nE s1 a ha hp]
      exact stepFrame_refl s1
    · rw [dStepRead_ok nE s1 a p ha hp]
      refine ⟨rfl, rfl, rfl, rfl, rfl, rfl, saveFreeB_cons_of _ _ rfl, fun b hb => ?_⟩
      have hb2 : b ∈ a :: ampReads s1.trace := hb
      rcases List.mem_cons.mp hb2 with hb3 | hb3
      · exact Or.inr (by rw [ha, hb3])
      · exact Or.inl hb3

theorem dStep_frame (cfg : Cfg) (ep j : ℕ) (nE : PT) (s : St) (h : ¬(ep = 0 ∧ j = 0)) :
    StepFrame s (carrier (dStep cfg ep j nE s)) :=
  stepFrame_trans (dStepBranch_frame cfg ep j s h) (dStepRead_frame nE _)

theorem gStepRec_alpha0 (cfg : Cfg) (s1 : St) (h : cfg.alpha = 0) :
    gStepRec cfg s1 = Except.ok { s1 with
      recLoss := some RL.zero, zOptV := some (FT.pure s1.zopt) } := by
  unfold gStepRec
  rw [if_neg (not_not_intro h)]

theorem gStepRec_ok (cfg : Cfg) (s1 : St) (a : Amp) (zp : PT) (hal : cfg.alpha ≠ 0)
    (ha : s1.amp = some a) (hz : s1.zprev = some zp) :
    gStepRec cfg s1 = Except.ok { s1 with
      zOptV := some (FT.combine a (FT.pure s1.zopt) (FT.pure zp))
      recLoss := some (RL.mse cfg.alpha
        (FT.gen (FT.combine a (FT.pure s1.zopt) (FT.pure zp)) (FT.pure zp)) PT.real)
      trace := Event.backwardRec (RL.mse cfg.alpha
          (FT.gen (FT.combine a (FT.pure s1.zopt) (FT.pure zp)) (FT.pure zp)) PT.real)
        :: Event.ampRead Site.zOptC a :: s1.trace } := by
  unfold gStepRec
  rw [if_pos hal, ha, hz]

theorem gStepRec_err1 (cfg : Cfg) (s1 : St) (hal : cfg.alpha ≠ 0) (ha : s1.amp = none) :
    gStepRec cfg s1 = Except.error (Err.undefinedLocal, s1) := by
  unfold gStepRec
  rw [if_pos hal, ha]

theorem gStepRec_err2 (cfg : Cfg) (s1 : St) (a : Amp) (hal : cfg.alpha ≠ 0)
    (ha : s1.amp = some a) (hz : s1.zprev = none) :
    gStepRec cfg s1 = Except.error (Err.undefinedLocal, s1) := by
  unfold gStepRec
  rw [if_pos hal, ha, hz]

theorem gStepRec_frame (cfg : Cfg) (s1 : St) :
    StepFrame s1 (carrier (gStepRec cfg s1)) := by
  by_cases hal : cfg.alpha = 0
  · rw [gStepRec_alpha0 cfg s1 hal]
    exact ⟨rfl, rfl, rfl, rfl, rfl, rfl, rfl, fun b hb => Or.inl hb⟩
  · rcases ha : s1.amp with _ | a
    · rw [gStepRec_err1 cfg s1 hal ha]
      exact stepFrame_refl s1
    · rcases hz : s1.zprev with _ | zp
      · rw [gStepRec_err2 cfg s1 a hal ha hz]
        exact stepFrame_refl s1
      · rw [gStepRec_ok cfg s1 a zp hal ha hz]
        refine ⟨rfl, rfl, rfl, rfl, rfl, rfl, ?_, fun b hb => ?_⟩
        · rfl
        · have hb2 : b ∈ a :: ampReads s1.trace := hb
          rcases List.mem_cons.mp hb2 with hb3 | hb3
          · exact Or.inr (by rw [ha, hb3])
          · exact Or.inl hb3

theorem gStep_entry (cfg : Cfg) (s : St) (n : FT) (p : PT)
    (hn : s.noise = some n) (hp : s.prev = some p) :
    gStep cfg s = gStepRec cfg { s with fake := some (FT.gen n (FT.pure p)) } := by
  unfold gStep
  rw [hn, hp]

theorem gStep_err1 (cfg : Cfg) (s : St) (hn : s.noise = none) :
    gStep cfg s = Except.error (Err.undefinedLocal, s) := by
  unfold gStep
  rw [hn]

theorem gStep_err2 (cfg : Cfg) (s : St) (n : FT)
    (hn : s.noise = some n) (hp : s.prev = none) :
    gStep cfg s = Except.error (Err.undefinedLocal, s) := by
  unfold gStep
  rw [hn, hp]

theorem gStep_frame (cfg : Cfg) (s : St) :
    StepFrame s (carrier (gStep cfg s)) := by
  rcases hn : s.noise with _ | n
  · rw [gStep_err1 cfg s hn]
    exact stepFrame_refl s
  · rcases hp : s.prev with _ | p
    · rw [gStep_err2 cfg s n hn hp]
      exact stepFrame_refl s
    · rw [gStep_entry cfg s n p hn hp]
      exact stepFrame_trans
        (⟨rfl, rfl, rfl, rfl, rfl, rfl, rfl, fun b hb => Or.inl hb⟩ :
          StepFrame s { s with fake := some (FT.gen n (FT.pure p)) })
        (gStepRec_frame cfg _)

theorem diagLog_skip (cfg : Cfg) (ep : ℕ) (s : St)
    (hm : ¬(cfg.currentScale * cfg.niter + ep) % 10 = 0) :
    diagLog cfg ep s = Except.ok s := by
  unfold diagLog
  rw [if_neg hm]

theorem diagLog_ok (cfg : Cfg) (ep : ℕ) (s : St) (a : Amp) (rl : RL)
    (hm : (cfg.currentScale * cfg.niter + ep) % 10 = 0)
    (ha : s.amp = some a) (hr : s.recLoss = some rl) :
    diagLog cfg ep s = Except.ok { s with
      trace := Event.ampRead Site.logAmp a :: s.trace } := by
  unfold diagLog
  rw [if_pos hm, ha, hr]

theorem diagLog_err1 (cfg : Cfg) (ep : ℕ) (s : St)
    (hm : (cfg.currentScale * cfg.niter + ep) % 10 = 0) (ha : s.amp = none) :
    diagLog cfg ep s = Except.error (Err.undefinedLocal, s) := by
  unfold diagLog
  rw [if_pos hm, ha]

theorem diagLog_err2 (cfg : Cfg) (ep : ℕ) (s : St) (a : Amp)
    (hm : (cfg.currentScale * cfg.niter + ep) % 10 = 0)
    (ha : s.amp = some a) (hr : s.recLoss = none) :
    diagLog cfg ep s = Except.error (Err.undefinedLocal, s) := by
  unfold diagLog
  rw [if_pos hm, ha, hr]

theorem diagLog_frame (cfg : Cfg) (ep : ℕ) (s : St) :
    StepFrame s (carrier (diagLog cfg ep s)) := by
  by_cases hm : (cfg.currentScale * cfg.niter + ep) % 10 = 0
  · rcases ha : s.amp with _ | a
    · rw [diagLog_err1 cfg ep s hm ha]
      exact stepFrame_refl s
    · rcases hr : s.recLoss with _ | rl
      · rw [diagLog_err2 cfg ep s a hm ha hr]
        exact stepFrame_refl s
      · rw [diagLog_ok cfg ep s a rl hm ha hr]
        refine ⟨rfl, rfl, rfl, rfl, rfl, rfl, saveFreeB_cons_of _ _ rfl, fun b hb => ?_⟩
        have hb2 : b ∈ a :: ampReads s.trace := hb
        rcases List.mem_cons.mp hb2 with hb3 | hb3
        · exact Or.inr (by rw [ha, hb3])
        · exact Or.inl hb3
  · rw [diagLog_skip cfg ep s hm]
    exact stepFrame_refl s

theorem diagRender_carrier (cfg : Cfg) (ep : ℕ) (s : St) :
    carrier (diagRender cfg ep s) = s := by
  unfold diagRender
  split_ifs with hc
  · cases hf : s.fake with
    | none => rfl
    | some f =>
      cases hz : s.zOptV with
      | none => rfl
      | some z =>
        cases hp : s.zprev with
        | none => rfl
        | some zp => rfl
  · rfl

theorem diagRender_frame (cfg : Cfg) (ep : ℕ) (s : St) :
    StepFrame s (carrier (diagRender cfg ep s)) := by
  rw [diagRender_carrier]
  exact stepFrame_refl s

theorem diag_frame (cfg : Cfg) (ep : ℕ) (s : St) :
    StepFrame s (carrier (diag cfg ep s)) := by
  unfold diag
  cases hl : diagLog cfg ep s with
  | error e =>
    have h1 := diagLog_frame cfg ep s
    rw [hl] at h1
    exact h1
  | ok s2 =>
    have h1 := diagLog_frame cfg ep s
    rw [hl] at h1
    have h2 : carrier (seqE (Except.ok s2) (diagRender cfg ep))
        = carrier (diagRender cfg ep s2) := rfl
    rw [h2]
    exact stepFrame_trans h1 (diagRender_frame cfg ep s2)

theorem stepFrame_invA {cfg : Cfg} {arg : PT} {s1 s2 : St}
    (hf : StepFrame s1 s2) (h : InvA cfg arg s1) : InvA cfg arg s2 := by
  obtain ⟨z, d, g, i, a, asg, sf, rd⟩ := hf
  refine ⟨z.trans h.zopt, sf.trans h.saveFree, i.trans h.ifp, a.trans h.amp,
    asg.trans h.assigns, ?_⟩
  rw [List.eq_nil_iff_forall_not_mem]
  intro b hb
  rcases rd b hb with hb2 | hb2
  · rw [h.reads] at hb2
    exact absurd hb2 (List.not_mem_nil b)
  · rw [h.amp] at hb2
    exact Option.noConfusion hb2

theorem stepFrame_invB {cfg : Cfg} {arg : PT} {s1 s2 : St}
    (hf : StepFrame s1 s2) (h : InvB cfg arg s1) : InvB cfg arg s2 := by
  obtain ⟨z, d, g, i, a, asg, sf, rd⟩ := hf
  refine ⟨z.trans h.zopt, sf.trans h.saveFree,
    fun hp => i.trans (h.ifpPos hp), fun hp => i.trans (h.ifpZero hp),
    a.trans h.amp, asg.trans h.assigns, fun b hb => ?_⟩
  rcases rd b hb with hb2 | hb2
  · exact h.reads b hb2
  · rw [h.amp] at hb2
    exact (Option.some.injEq _ _ ▸ hb2).symm ▸ rfl

theorem stepFrame_inv {cfg : Cfg} {arg : PT} {s1 s2 : St}
    (hf : StepFrame s1 s2) (h : Inv cfg arg s1) : Inv cfg arg s2 :=
  h.elim (fun hA => Or.inl (stepFrame_invA hf hA))
    (fun hB => Or.inr (stepFrame_invB hf hB))

theorem schedUpd_invA {cfg : Cfg} {arg : PT} {s : St} (g : ℚ) (h : InvA cfg arg s) :
    InvA cfg arg { s with schedD := schedStep g s.schedD, schedG := schedStep g s.schedG } :=
  ⟨h.zopt, h.saveFree, h.ifp, h.amp, h.assigns, h.reads⟩

theorem schedUpd_invB {cfg : Cfg} {arg : PT} {s : St} (g : ℚ) (h : InvB cfg arg s) :
    InvB cfg arg { s with schedD := schedStep g s.schedD, schedG := schedStep g s.schedG } :=
  ⟨h.zopt, h.saveFree, h.ifpPos, h.ifpZero, h.amp, h.assigns, h.reads⟩

theorem rngUpd_invA {cfg : Cfg} {arg : PT} {s : St} (h : InvA cfg arg s) :
    InvA cfg arg { s with rng := s.rng + 1 } :=
  ⟨h.zopt, h.saveFree, h.ifp, h.amp, h.assigns, h.reads⟩

theorem rngUpd_invB {cfg : Cfg} {arg : PT} {s : St} (h : InvB cfg arg s) :
    InvB cfg arg { s with rng := s.rng + 1 } :=
  ⟨h.zopt, h.saveFree, h.ifpPos, h.ifpZero, h.amp, h.assigns, h.reads⟩

theorem ampInit_zero (cfg : Cfg) (h : cfg.currentScale = 0) : ampInit cfg = Amp.one := by
  unfold ampInit
  rw [if_pos h]

theorem ampInit_pos (cfg : Cfg) (h : ¬cfg.currentScale = 0) :
    ampInit cfg = Amp.calib (PT.interp (applyTT cfg PT.drawRec)) PT.real := by
  unfold ampInit
  rw [if_neg h]

/-- The very first D-step always succeeds and moves the state from phase A
to phase B: `opt.noise_amp` receives `ampInit cfg`, and at scale 0
`input_from_prev_scale` is replaced by the unpadded zero seed. -/
theorem dStep00 (cfg : Cfg) (arg : PT) (nE : PT) (s : St) (hA : InvA cfg arg s) :
    ∃ s2, dStep cfg 0 0 nE s = Except.ok s2 ∧ InvB cfg arg s2 := by
  unfold dStep
  by_cases hsc : cfg.currentScale = 0
  · rw [dStepBranch_00_zero cfg s hsc]
    refine ⟨_, dStepRead_ok nE _ Amp.one (PT.padI (PT.zeros cfg.ncCurrent cfg.nzx cfg.nzy))
      rfl rfl, ?_⟩
    refine ⟨hA.zopt, ?_, ?_, fun _ => rfl, ?_, ?_, ?_⟩
    · exact hA.saveFree
    · intro hp
      rw [hsc] at hp
      exact absurd hp (lt_irrefl 0)
    · show some Amp.one = some (ampInit cfg)
      rw [ampInit_zero cfg hsc]
    · show ampAssigns (Event.ampRead Site.combineNoise Amp.one
        :: Event.ampAssign 0 0 Amp.one :: s.trace) = [(0, 0, ampInit cfg)]
      rw [ampAssigns_read, ampAssigns_assign, hA.assigns, ampInit_zero cfg hsc]
    · intro b hb
      have hb2 : b ∈ Amp.one :: ampReads s.trace := hb
      rw [hA.reads, ampInit_zero cfg hsc] at *
      rcases List.mem_cons.mp hb2 with hb3 | hb3
      · exact hb3
      · exact absurd hb3 (List.not_mem_nil b)
  · rw [dStepBranch_00_pos cfg s hsc]
    refine ⟨_, dStepRead_ok nE _ (Amp.calib (PT.interp (applyTT cfg PT.drawRec)) PT.real)
      (PT.padI (PT.interp (applyTT cfg (PT.drawRand s.rng)))) rfl rfl, ?_⟩
    refine ⟨hA.zopt, ?_, fun _ => hA.ifp, fun hp => absurd hp hsc, ?_, ?_, ?_⟩
    · exact hA.saveFree
    · show some (Amp.calib (PT.interp (applyTT cfg PT.drawRec)) PT.real)
        = some (ampInit cfg)
      rw [ampInit_pos cfg hsc]
    · show ampAssigns (Event.ampRead Site.combineNoise _
        :: Event.ampAssign 0 0 _ :: Event.drawCall Mode.recm 0 0 0
        :: Event.drawCall Mode.rand 0 0 s.rng :: s.trace) = [(0, 0, ampInit cfg)]
      rw [ampAssigns_read, ampAssigns_assign, ampAssigns_draw, ampAssigns_draw,
        hA.assigns, ampInit_pos cfg hsc]
    · intro b hb
      have hb2 : b ∈ Amp.calib (PT.interp (applyTT cfg PT.drawRec)) PT.real
          :: ampReads s.trace := hb
      rw [hA.reads] at hb2
      rcases List.mem_cons.mp hb2 with hb3 | hb3
      · rw [hb3, ampInit_pos cfg hsc]
      · exact absurd hb3 (List.not_mem_nil b)

/-- Lifting a carrier-invariant through the discriminator loop, provided
every D-step with index at least `j0` preserves it. -/
theorem dLoop_pres (cfg : Cfg) (ep : ℕ) (nE : PT) (P : St → Prop) (j0 : ℕ)
    (hstep : ∀ j s, j0 ≤ j → P s → P (carrier (dStep cfg ep j nE s))) :
    ∀ fuel j s, j0 ≤ j → P s → P (carrier (dLoop cfg ep nE j fuel s)) := by
  intro fuel
  induction fuel with
  | zero => intro j s _ hP; exact hP
  | succ n ih =>
    intro j s hj hP
    have h1 := hstep j s hj hP
    cases hd : dStep cfg ep j nE s with
    | error e =>
      rw [hd] at h1
      show P (carrier (dLoop cfg ep nE j (n + 1) s))
      unfold dLoop
      rw [hd]
      exact h1
    | ok s2 =>
      rw [hd] at h1
      show P (carrier (dLoop cfg ep nE j (n + 1) s))
      unfold dLoop
      rw [hd]
      exact ih (j + 1) s2 (le_trans hj (Nat.le_succ j)) h1

/-- Lifting a carrier-invariant through the generator loop. -/
theorem gLoop_pres (cfg : Cfg) (P : St → Prop)
    (hstep : ∀ s, P s → P (carrier (gStep cfg s))) :
    ∀ fuel s, P s → P (carrier (gLoop cfg fuel s)) := by
  intro fuel
  induction fuel with
  | zero => intro s hP; exact hP
  | succ n ih =>
    intro s hP
    have h1 := hstep s hP
    cases hg : gStep cfg s with
    | error e =>
      rw [hg] at h1
      show P (carrier (gLoop cfg (n + 1) s))
      unfold gLoop
      rw [hg]
      exact h1
    | ok s2 =>
      rw [hg] at h1
      show P (carrier (gLoop cfg (n + 1) s))
      unfold gLoop
      rw [hg]
      exact ih s2 h1

/-- Lifting a carrier-invariant through `seqE`. -/
theorem seqE_pres (P : St → Prop) (r : Except (Err × St) St)
    (f : St → Except (Err × St) St) (hr : P (carrier r))
    (hf : ∀ s, P s → P (carrier (f s))) : P (carrier (seqE r f)) := by
  cases r with
  | error e => exact hr
  | ok s => exact hf s hr

/-- An epoch body of epoch `ep ≥ 1` preserves every predicate that is stable
under `StepFrame` and under the rng and scheduler updates. -/
theorem epochBody_pres (cfg : Cfg) (ep : ℕ) (P : St → Prop) (hep : 1 ≤ ep)
    (hframe : ∀ s1 s2, StepFrame s1 s2 → P s1 → P s2)
    (hrng : ∀ s, P s → P { s with rng := s.rng + 1 })
    (hsched : ∀ s, P s → P { s with
      schedD := schedStep cfg.gamma s.schedD, schedG := schedStep cfg.gamma s.schedG }) :
    ∀ s, P s → P (carrier (epochBody cfg ep s)) := by
  intro s hP
  unfold epochBody
  refine seqE_pres P _ _ ?_ ?_
  · refine dLoop_pres cfg ep _ P 0 ?_ cfg.dsteps 0 _ (Nat.zero_le 0) (hrng s hP)
    intro j s2 _ hP2
    refine hframe s2 _ (dStep_frame cfg ep j _ s2 ?_) hP2
    intro hc
    rw [hc.1] at hep
    exact absurd hep (by omega)
  · intro s2 hP2
    refine seqE_pres P _ _ ?_ ?_
    · exact gLoop_pres cfg P (fun s3 hP3 => hframe s3 _ (gStep_frame cfg s3) hP3)
        cfg.gsteps s2 hP2
    · intro s3 hP3
      refine seqE_pres P _ _ ?_ ?_
      · exact hframe s3 _ (diag_frame cfg ep s3) hP3
      · intro s4 hP4
        exact hsched s4 hP4

theorem initSt_invA (cfg : Cfg) (arg : PT) : InvA cfg arg (initSt cfg arg) :=
  ⟨rfl, rfl, rfl, rfl, rfl, rfl⟩

/-- The first epoch with at least one D-step always enters phase B. -/
theorem epochBody0_invB (cfg : Cfg) (arg : PT) (hds : 1 ≤ cfg.dsteps) :
    ∀ s, InvA cfg arg s → InvB cfg arg (carrier (epochBody cfg 0 s)) := by
  intro s hA
  unfold epochBody
  obtain ⟨m, hm⟩ : ∃ m, cfg.dsteps = m + 1 := ⟨cfg.dsteps - 1, by omega⟩
  rw [hm]
  refine seqE_pres (InvB cfg arg) _ _ ?_ ?_
  · have hA1 : InvA cfg arg { s with rng := s.rng + 1 } := rngUpd_invA hA
    obtain ⟨s2, hd, hB⟩ := dStep00 cfg arg
      (PT.padN (PT.noiseDraw cfg.ncCurrent cfg.nzx cfg.nzy s.rng)) _ hA1
    show InvB cfg arg (carrier (dLoop cfg 0 _ 0 (m + 1) _))
    unfold dLoop
    rw [hd]
    refine dLoop_pres cfg 0 _ (InvB cfg arg) 1 ?_ m 1 s2 (le_refl 1) hB
    intro j s3 hj hB3
    refine stepFrame_invB (dStep_frame cfg 0 j _ s3 ?_) hB3
    intro hc
    rw [hc.2] at hj
    exact absurd hj (by omega)
  · intro s2 hB2
    refine seqE_pres (InvB cfg arg) _ _ ?_ ?_
    · exact gLoop_pres cfg (InvB cfg arg)
        (fun s3 hB3 => stepFrame_invB (gStep_frame cfg s3) hB3) cfg.gsteps s2 hB2
    · intro s3 hB3
      refine seqE_pres (InvB cfg arg) _ _ ?_ ?_
      · exact stepFrame_invB (diag_frame cfg 0 s3) hB3
      · intro s4 hB4
        exact schedUpd_invB cfg.gamma hB4

/-- The first epoch with no D-step stays in phase A. -/
theorem epochBody0_invA (cfg : Cfg) (arg : PT) (hds : cfg.dsteps = 0) :
    ∀ s, InvA cfg arg s → InvA cfg arg (carrier (epochBody cfg 0 s)) := by
  intro s hA
  unfold epochBody
  rw [hds]
  refine seqE_pres (InvA cfg arg) _ _ ?_ ?_
  · exact rngUpd_invA hA
  · intro s2 hA2
    refine seqE_pres (InvA cfg arg) _ _ ?_ ?_
    · exact gLoop_pres cfg (InvA cfg arg)
        (fun s3 hA3 => stepFrame_invA (gStep_frame cfg s3) hA3) cfg.gsteps s2 hA2
    · intro s3 hA3
      refine seqE_pres (InvA cfg arg) _ _ ?_ ?_
      · exact stepFrame_invA (diag_frame cfg 0 s3) hA3
      · intro s4 hA4
        exact ⟨hA4.zopt, hA4.saveFree, hA4.ifp, hA4.amp, hA4.assigns, hA4.reads⟩

/-- Lifting a carrier-invariant through the epoch loop from epoch 1 on. -/
theorem epochLoop_pres (cfg : Cfg) (P : St → Prop)
    (hbody : ∀ ep s, 1 ≤ ep → P s → P (carrier (epochBody cfg ep s))) :
    ∀ fuel ep s, 1 ≤ ep → P s → P (carrier (epochLoop cfg ep fuel s)) := by
  intro fuel
  induction fuel with
  | zero => intro ep s _ hP; exact hP
  | succ n ih =>
    intro ep s hep hP
    have h1 := hbody ep s hep hP
    cases hb : epochBody cfg ep s with
    | error e =>
      rw [hb] at h1
      show P (carrier (epochLoop cfg ep (n + 1) s))
      unfold epochLoop
      rw [hb]
      exact h1
    | ok s2 =>
      rw [hb] at h1
      show P (carrier (epochLoop cfg ep (n + 1) s))
      unfold epochLoop
      rw [hb]
      exact ih (ep + 1) s2 (by omega) h1

/-- The carried state of the whole epoch loop satisfies phase B whenever
at least one epoch and at least one D-step run. -/
theorem epochLoop_invB (cfg : Cfg) (arg : PT) (hds : 1 ≤ cfg.dsteps)
    (hn : 1 ≤ cfg.niter) :
    InvB cfg arg (carrier (epochLoop cfg 0 cfg.niter (initSt cfg arg))) := by
  obtain ⟨m, hm⟩ : ∃ m, cfg.niter = m + 1 := ⟨cfg.niter - 1, by omega⟩
  rw [hm]
  have h0 := epochBody0_invB cfg arg hds (initSt cfg arg) (initSt_invA cfg arg)
  cases hb : epochBody cfg 0 (initSt cfg arg) with
  | error e =>
    rw [hb] at h0
    show InvB cfg arg (carrier (epochLoop cfg 0 (m + 1) (initSt cfg arg)))
    unfold epochLoop
    rw [hb]
    exact h0
  | ok s2 =>
    rw [hb] at h0
    show InvB cfg arg (carrier (epochLoop cfg 0 (m + 1) (initSt cfg arg)))
    unfold epochLoop
    rw [hb]
    refine epochLoop_pres cfg (InvB cfg arg) ?_ m 1 s2 (le_refl 1) h0
    intro ep s hep hB
    exact epochBody_pres cfg ep (InvB cfg arg) hep
      (fun s1 s2 hf => stepFrame_invB hf) (fun s1 => rngUpd_invB)
      (fun s1 => schedUpd_invB cfg.gamma) s hB

theorem inv_rng {cfg : Cfg} {arg : PT} {s : St} (h : Inv cfg arg s) :
    Inv cfg arg { s with rng := s.rng + 1 } :=
  h.elim (fun hA => Or.inl (rngUpd_invA hA)) (fun hB => Or.inr (rngUpd_invB hB))

theorem inv_sched {cfg : Cfg} {arg : PT} {s : St} (g : ℚ) (h : Inv cfg arg s) :
    Inv cfg arg { s with schedD := schedStep g s.schedD, schedG := schedStep g s.schedG } :=
  h.elim (fun hA => Or.inl (schedUpd_invA g hA)) (fun hB => Or.inr (schedUpd_invB g hB))

/-- The carried state of the whole epoch loop always satisfies one of the
two phases. -/
theorem epochLoop_inv (cfg : Cfg) (arg : PT) :
    Inv cfg arg (carrier (epochLoop cfg 0 cfg.niter (initSt cfg arg))) := by
  rcases hn : cfg.niter with _ | m
  · exact Or.inl (initSt_invA cfg arg)
  · have h0 : Inv cfg arg (carrier (epochBody cfg 0 (initSt cfg arg))) := by
      rcases Nat.eq_zero_or_pos cfg.dsteps with hds | hds
      · exact Or.inl (epochBody0_invA cfg arg hds (initSt cfg arg) (initSt_invA cfg arg))
      · exact Or.inr (epochBody0_invB cfg arg hds (initSt cfg arg) (initSt_invA cfg arg))
    cases hb : epochBody cfg 0 (initSt cfg arg) with
    | error e =>
      rw [hb] at h0
      show Inv cfg arg (carrier (epochLoop cfg 0 (m + 1) (initSt cfg arg)))
      unfold epochLoop
      rw [hb]
      exact h0
    | ok s2 =>
      rw [hb] at h0
      show Inv cfg arg (carrier (epochLoop cfg 0 (m + 1) (initSt cfg arg)))
      unfold epochLoop
      rw [hb]
      refine epochLoop_pres cfg (Inv cfg arg) ?_ m 1 s2 (le_refl 1) h0
      intro ep s hep hI
      exact epochBody_pres cfg ep (Inv cfg arg) hep
        (fun s1 s2 hf => stepFrame_inv hf) (fun s1 => inv_rng)
        (fun s1 => inv_sched cfg.gamma) s hI

theorem dStepBranch_sched (cfg : Cfg) (ep j : ℕ) (s : St) :
    (dStepBranch cfg ep j s).schedD = s.schedD ∧
    (dStepBranch cfg ep j s).schedG = s.schedG := by
  unfold dStepBranch
  split_ifs <;> exact ⟨rfl, rfl⟩

/-- Every D-step, the very first included, leaves both schedulers alone. -/
theorem dStep_sched (cfg : Cfg) (ep j : ℕ) (nE : PT) (s : St) :
    (carrier (dStep cfg ep j nE s)).schedD = s.schedD ∧
    (carrier (dStep cfg ep j nE s)).schedG = s.schedG := by
  have hb := dStepBranch_sched cfg ep j s
  have hf := dStepRead_frame nE (dStepBranch cfg ep j s)
  exact ⟨hf.2.1.trans hb.1, hf.2.2.1.trans hb.2⟩

/-- The whole epoch body steps each scheduler exactly once. -/
theorem epochBody_ok_sched (cfg : Cfg) (ep : ℕ) (s s' : St)
    (h : epochBody cfg ep s = Except.ok s') :
    s'.schedD = schedStep cfg.gamma s.schedD ∧
    s'.schedG = schedStep cfg.gamma s.schedG := by
  unfold epochBody at h
  cases hdl : dLoop cfg ep (PT.padN (PT.noiseDraw cfg.ncCurrent cfg.nzx cfg.nzy s.rng)) 0
      cfg.dsteps { s with rng := s.rng + 1 } with
  | error e =>
    rw [hdl] at h
    simp only [seqE] at h
    exact Except.noConfusion h
  | ok s2 =>
    rw [hdl] at h
    simp only [seqE] at h
    have h2 : (carrier (dLoop cfg ep
        (PT.padN (PT.noiseDraw cfg.ncCurrent cfg.nzx cfg.nzy s.rng)) 0
        cfg.dsteps { s with rng := s.rng + 1 })).schedD = s.schedD ∧
        (carrier (dLoop cfg ep
        (PT.padN (PT.noiseDraw cfg.ncCurrent cfg.nzx cfg.nzy s.rng)) 0
        cfg.dsteps { s with rng := s.rng + 1 })).schedG = s.schedG := by
      refine dLoop_pres cfg ep _ (fun t => t.schedD = s.schedD ∧ t.schedG = s.schedG) 0
        ?_ cfg.dsteps 0 _ (Nat.zero_le 0) ⟨rfl, rfl⟩
      intro j s3 _ hP3
      have hd := dStep_sched cfg ep j
        (PT.padN (PT.noiseDraw cfg.ncCurrent cfg.nzx cfg.nzy s.rng)) s3
      exact ⟨hd.1.trans hP3.1, hd.2.trans hP3.2⟩
    rw [hdl] at h2
    simp only [carrier_ok] at h2
    cases hgl : gLoop cfg cfg.gsteps s2 with
    | error e =>
      rw [hgl] at h
      simp only [seqE] at h
      exact Except.noConfusion h
    | ok s3 =>
      rw [hgl] at h
      simp only [seqE] at h
      have h3 : (carrier (gLoop cfg cfg.gsteps s2)).schedD = s2.schedD ∧
          (carrier (gLoop cfg cfg.gsteps s2)).schedG = s2.schedG := by
        refine gLoop_pres cfg (fun t => t.schedD = s2.schedD ∧ t.schedG = s2.schedG)
          ?_ cfg.gsteps s2 ⟨rfl, rfl⟩
        intro s4 hP4
        have hg := gStep_frame cfg s4
        exact ⟨hg.2.1.trans hP4.1, hg.2.2.1.trans hP4.2⟩
      rw [hgl] at h3
      simp only [carrier_ok] at h3
      cases hdg : diag cfg ep s3 with
      | error e =>
        rw [hdg] at h
        simp only [seqE] at h
        exact Except.noConfusion h
      | ok s4 =>
        rw [hdg] at h
        simp only [seqE] at h
        have h4 : (carrier (diag cfg ep s3)).schedD = s3.schedD ∧
            (carrier (diag cfg ep s3)).schedG = s3.schedG := by
          have hg := diag_frame cfg ep s3
          exact ⟨hg.2.1, hg.2.2.1⟩
        rw [hdg] at h4
        simp only [carrier_ok] at h4
        have h5 : s' = { s4 with
            schedD := schedStep cfg.gamma s4.schedD
            schedG := schedStep cfg.gamma s4.schedG } :=
          (Except.ok.injEq _ _ ▸ h).symm
        rw [h5]
        constructor
        · show schedStep cfg.gamma s4.schedD = schedStep cfg.gamma s.schedD
          rw [h4.1, h3.1, h2.1]
        · show schedStep cfg.gamma s4.schedG = schedStep cfg.gamma s.schedG
          rw [h4.2, h3.2, h2.2]

theorem schedStepN_shift (g : ℚ) (n : ℕ) (d : Sched) :
    schedStepN g n (schedStep g d) = schedStep g (schedStepN g n d) := by
  induction n with
  | zero => rfl
  | succ m ih =>
    show schedStep g (schedStepN g m (schedStep g d)) = _
    rw [ih]
    rfl

/-- A completed epoch loop of `fuel` epochs steps each scheduler `fuel`
times. -/
theorem epochLoop_ok_sched (cfg : Cfg) :
    ∀ fuel ep s s', epochLoop cfg ep fuel s = Except.ok s' →
      s'.schedD = schedStepN cfg.gamma fuel s.schedD ∧
      s'.schedG = schedStepN cfg.gamma fuel s.schedG := by
  intro fuel
  induction fuel with
  | zero =>
    intro ep s s' h
    have h2 : s = s' := Except.ok.injEq _ _ ▸ h
    rw [← h2]
    exact ⟨rfl, rfl⟩
  | succ n ih =>
    intro ep s s' h
    unfold epochLoop at h
    cases hb : epochBody cfg ep s with
    | error e =>
      rw [hb] at h
      exact absurd h (fun hc => Except.noConfusion hc)
    | ok s2 =>
      rw [hb] at h
      have h1 := epochBody_ok_sched cfg ep s s2 hb
      have h2 := ih (ep + 1) s2 s' h
      constructor
      · rw [h2.1, h1.1, schedStepN_shift]
        rfl
      · rw [h2.2, h1.2, schedStepN_shift]
        rfl

theorem schedStepN_lastEpoch0 (g l : ℚ) :
    ∀ n, (schedStepN g n { lastEpoch := 0, lr := l }).lastEpoch = n := by
  intro n
  induction n with
  | zero => rfl
  | succ m ih =>
    show (schedStepN g m { lastEpoch := 0, lr := l }).lastEpoch + 1 = m + 1
    rw [ih]

theorem msCount_zero : msCount 0 = 0 := by
  norm_num [msCount]

theorem msCount_succ (n : ℕ) :
    msCount (n + 1) = msCount n + (if n + 1 = 1600 ∨ n + 1 = 2500 then 1 else 0) := by
  unfold msCount
  split_ifs <;> omega

/-- Closed form of the learning rate after `n` scheduler steps: the initial
rate times gamma to the number of milestones passed. -/
theorem schedStepN_lr (g l : ℚ) :
    ∀ n, (schedStepN g n { lastEpoch := 0, lr := l }).lr = l * g ^ msCount n := by
  intro n
  induction n with
  | zero =>
    rw [msCount_zero, pow_zero, mul_one]
    rfl
  | succ m ih =>
    show (if (schedStepN g m { lastEpoch := 0, lr := l }).lastEpoch + 1 = 1600 ∨
        (schedStepN g m { lastEpoch := 0, lr := l }).lastEpoch + 1 = 2500 then
        (schedStepN g m { lastEpoch := 0, lr := l }).lr * g else
        (schedStepN g m { lastEpoch := 0, lr := l }).lr) = l * g ^ msCount (m + 1)
    rw [schedStepN_lastEpoch0 g l m, ih, msCount_succ]
    split_ifs with hc
    · rw [pow_succ]
      ring
    · simp

/-- A successful run is exactly a successful epoch loop followed by the two
checkpointing events. -/
theorem run_ok_decomp (cfg : Cfg) (arg : PT) (s' : St)
    (h : run cfg arg = Except.ok s') :
    ∃ s0, epochLoop cfg 0 cfg.niter (initSt cfg arg) = Except.ok s0 ∧
      s' = { s0 with trace := Event.saveNets :: Event.saveZopt s0.zopt :: s0.trace } := by
  unfold run at h
  cases he : epochLoop cfg 0 cfg.niter (initSt cfg arg) with
  | error e =>
    rw [he] at h
    exact Except.noConfusion h
  | ok s0 =>
    rw [he] at h
    exact ⟨s0, rfl, (Except.ok.injEq _ _ ▸ h).symm⟩

/-- An aborted run is exactly an aborted epoch loop: the terminal
checkpointing never runs. -/
theorem run_err_decomp (cfg : Cfg) (arg : PT) (e : Err × St)
    (h : run cfg arg = Except.error e) :
    epochLoop cfg 0 cfg.niter (initSt cfg arg) = Except.error e := by
  unfold run at h
  cases he : epochLoop cfg 0 cfg.niter (initSt cfg arg) with
  | error e2 =>
    rw [he] at h
    have h2 : (Except.error e2 : Except (Err × St) St) = Except.error e := h
    exact h2
  | ok s0 =>
    rw [he] at h
    exact Except.noConfusion h

theorem diagRender_err_fake (cfg : Cfg) (ep : ℕ) (s : St)
    (hc : ep % 500 = 0 ∨ ep = cfg.niter - 1) (hf : s.fake = none) :
    diagRender cfg ep s = Except.error (Err.undefinedLocal, s) := by
  unfold diagRender
  rw [if_pos hc, hf]

/-- With `Dsteps = 0` the D loop assigns nothing, so the first epoch reads
an undefined name and aborts: in the G step (`noise`) if `Gsteps ≥ 1`,
otherwise in the diagnostics (`opt.noise_amp`/`rec_loss` when the logging
fires, else `fake` in the rendering block, which epoch 0 always enters). -/
theorem epochBody0_dsteps0_err (cfg : Cfg) (hds : cfg.dsteps = 0) (s : St)
    (hnoise : s.noise = none) (hamp : s.amp = none) (hfake : s.fake = none) :
    ∃ e, epochBody cfg 0 s = Except.error e := by
  have hnoise1 : ({ s with rng := s.rng + 1 } : St).noise = none := hnoise
  have hamp1 : ({ s with rng := s.rng + 1 } : St).amp = none := hamp
  have hfake1 : ({ s with rng := s.rng + 1 } : St).fake = none := hfake
  unfold epochBody
  rw [hds]
  simp only [dLoop, seqE]
  rcases hg : cfg.gsteps with _ | n
  · simp only [gLoop, seqE]
    unfold diag
    by_cases hm10 : (cfg.currentScale * cfg.niter + 0) % 10 = 0
    · rw [diagLog_err1 cfg 0 _ hm10 hamp1]
      exact ⟨_, rfl⟩
    · rw [diagLog_skip cfg 0 _ hm10]
      rw [show (seqE (Except.ok ({ s with rng := s.rng + 1 } : St))
        (diagRender cfg 0)) = diagRender cfg 0 { s with rng := s.rng + 1 } from rfl]
      rw [diagRender_err_fake cfg 0 _ (Or.inl rfl) hfake1]
      exact ⟨_, rfl⟩
  · simp only [gLoop]
    rw [gStep_err1 cfg _ hnoise1]
    exact ⟨_, rfl⟩

/-- With `Dsteps = 0` and at least one epoch, the whole call aborts. -/
theorem run_dsteps0_err (cfg : Cfg) (arg : PT) (hds : cfg.dsteps = 0)
    (hn : 1 ≤ cfg.niter) : okSt (run cfg arg) = none := by
  obtain ⟨m, hm⟩ : ∃ m, cfg.niter = m + 1 := ⟨cfg.niter - 1, by omega⟩
  obtain ⟨e, he⟩ := epochBody0_dsteps0_err cfg hds (initSt cfg arg) rfl rfl rfl
  have hl : epochLoop cfg 0 cfg.niter (initSt cfg arg) = Except.error e := by
    rw [hm]
    unfold epochLoop
    rw [he]
  unfold run
  rw [hl]
  rfl

theorem g2t_ne (t : PT) : PT.g2t t ≠ t := by
  induction t <;> simp_all

theorem run_carrier_zopt (cfg : Cfg) (arg : PT) :
    (carrier (run cfg arg)).zopt = zOptInit cfg := by
  have hI := epochLoop_inv cfg arg
  unfold run
  cases he : epochLoop cfg 0 cfg.niter (initSt cfg arg) with
  | error e =>
    rw [he] at hI
    exact hI.elim (fun hA => hA.zopt) (fun hB => hB.zopt)
  | ok s0 =>
    rw [he] at hI
    exact hI.elim (fun hA => hA.zopt) (fun hB => hB.zopt)

theorem run_carrier_ifp_pos (cfg : Cfg) (arg : PT) (hsc : 0 < cfg.currentScale) :
    (carrier (run cfg arg)).inFromPrev = arg := by
  have hI := epochLoop_inv cfg arg
  unfold run
  cases he : epochLoop cfg 0 cfg.niter (initSt cfg arg) with
  | error e =>
    rw [he] at hI
    exact hI.elim (fun hA => hA.ifp) (fun hB => hB.ifpPos hsc)
  | ok s0 =>
    rw [he] at hI
    exact hI.elim (fun hA => hA.ifp) (fun hB => hB.ifpPos hsc)

theorem run_carrier_amp (cfg : Cfg) (arg : PT)
    (hB : InvB cfg arg (carrier (epochLoop cfg 0 cfg.niter (initSt cfg arg)))) :
    ampAssigns (carrier (run cfg arg)).trace = [(0, 0, ampInit cfg)] ∧
    (carrier (run cfg arg)).amp = some (ampInit cfg) ∧
    ∀ a ∈ ampReads (carrier (run cfg arg)).trace, a = ampInit cfg := by
  unfold run
  cases he : epochLoop cfg 0 cfg.niter (initSt cfg arg) with
  | error e =>
    rw [he] at hB
    exact ⟨hB.assigns, hB.amp, hB.reads⟩
  | ok s0 =>
    rw [he] at hB
    refine ⟨?_, hB.amp, ?_⟩
    · exact (ampAssigns_saveN _).trans ((ampAssigns_saveZ _ _).trans hB.assigns)
    · intro a ha
      exact hB.reads a ha

/-- C1: the claim says the fake-branch `prev` is built by Draw-Concat only
once per epoch, on the first D-step, and reused by the remaining D-steps of
that epoch.  Counterexample: in the completed scale-1 run `cfgTwoD` with
`Dsteps = 2` and a single epoch, epoch 0 records two `rand`-mode draw_concat
calls, not one. -/
theorem prev_drawn_once_per_epoch_cx :
    (okSt (run cfgTwoD PT.argIn)).isSome = true ∧ cfgTwoD.currentScale = 1 ∧
    cfgTwoD.niter = 1 ∧ cfgTwoD.dsteps = 2 ∧
    onOk (fun s => decide (randCallsInEpoch s.trace 0 = 2)) false
      (run cfgTwoD PT.argIn) = true := by
  decide

/-- C1 (amended): at every scale beyond the coarsest, every D-step of every
epoch recomputes `prev` with a fresh `rand`-mode Draw-Concat call: a
successful D-step leaves `prev` equal to the padded, interpolated (and
possibly token-transformed) output of a Draw-Concat on the current random
index, advances the random counter, and records exactly one new `rand`
draw_concat call; `prev` is not reused across D-steps. -/
theorem prev_recomputed_every_dstep (cfg : Cfg) (ep j : ℕ) (nE : PT) (s : St)
    (hsc : 0 < cfg.currentScale) :
    onOk (fun s2 => decide
      (s2.prev = some (PT.padI (PT.interp (applyTT cfg (PT.drawRand s.rng)))) ∧
       s2.rng = s.rng + 1 ∧ randCalls s2.trace = randCalls s.trace + 1)) true
      (dStep cfg ep j nE s) = true := by
  unfold dStep
  by_cases h00 : ep = 0 ∧ j = 0
  · obtain ⟨he, hj⟩ := h00
    subst he
    subst hj
    rw [dStepBranch_00_pos cfg s (by omega)]
    rw [dStepRead_ok nE _ (Amp.calib (PT.interp (applyTT cfg PT.drawRec)) PT.real)
      (PT.padI (PT.interp (applyTT cfg (PT.drawRand s.rng)))) rfl rfl]
    exact decide_eq_true ⟨rfl, rfl, rfl⟩
  · rcases ha : s.amp with _ | a
    · rw [dStepBranch_not00 cfg ep j s h00, dStepRead_err1 nE { s with
        rng := s.rng + 1
        prev := some (PT.padI (PT.interp (applyTT cfg (PT.drawRand s.rng))))
        trace := Event.drawCall Mode.rand ep j s.rng :: s.trace } ha]
      rfl
    · rw [dStepBranch_not00 cfg ep j s h00, dStepRead_ok nE { s with
        rng := s.rng + 1
        prev := some (PT.padI (PT.interp (applyTT cfg (PT.drawRand s.rng))))
        trace := Event.drawCall Mode.rand ep j s.rng :: s.trace } a
        (PT.padI (PT.interp (applyTT cfg (PT.drawRand s.rng)))) ha rfl]
      exact decide_eq_true ⟨rfl, rfl, rfl⟩

/-- Witness for the amended C1 theorem at a concrete scale-1 step. -/
theorem prev_recomputed_every_dstep_witness :
    0 < cfgTwoD.currentScale ∧
    onOk (fun s2 => decide
      (s2.prev = some (PT.padI (PT.interp (applyTT cfgTwoD (PT.drawRand stAmp.rng)))) ∧
       s2.rng = stAmp.rng + 1 ∧ randCalls s2.trace = randCalls stAmp.trace + 1)) true
      (dStep cfgTwoD 0 1 PT.real stAmp) = true :=
  ⟨by decide, prev_recomputed_every_dstep cfgTwoD 0 1 PT.real stAmp (by decide)⟩

/-- C2: `update_noise_amplitude` returns `noise_update * sqrt(MSE(real,
z_prev))` where the MSE is the mean of squared element differences, and the
calibrator is deterministic: two calls on identical tensors return the same
value. -/
theorem update_noise_amplitude_spec (sq : ℚ → ℚ) (nu : ℚ) (z_prev real : List ℚ) :
    update_noise_amplitude sq nu z_prev real
      = nu * sq ((List.zipWith (fun a b => (a - b) ^ 2) real z_prev).sum
          / (real.length : ℚ)) ∧
    (∀ z2 r2, z2 = z_prev → r2 = real →
      update_noise_amplitude sq nu z2 r2 = update_noise_amplitude sq nu z_prev real) := by
  constructor
  · rfl
  · intro z2 r2 h1 h2
    rw [h1, h2]

/-- C3: in every training run (at least one epoch, at least one D-step),
`opt.noise_amp` is assigned exactly once, on D-step 0 of epoch 0 — to 1 at
scale 0 and to the calibrator output on the interpolated `rec` replay
otherwise — and every recorded read of the amplitude saw that frozen
value. -/
theorem noise_amp_assigned_once_and_frozen (cfg : Cfg) (arg : PT)
    (hd : 1 ≤ cfg.dsteps) (hn : 1 ≤ cfg.niter) :
    ampCheck cfg (run cfg arg) = true := by
  obtain ⟨h1, h2, h3⟩ := run_carrier_amp cfg arg (epochLoop_invB cfg arg hd hn)
  unfold ampCheck
  rw [Bool.and_eq_true, Bool.and_eq_true]
  refine ⟨⟨decide_eq_true h1, decide_eq_true h2⟩, ?_⟩
  rw [List.all_eq_true]
  intro a ha
  exact decide_eq_true (h3 a ha)

/-- Witness for C3 at a concrete one-epoch scale-0 run. -/
theorem noise_amp_assigned_once_and_frozen_witness :
    ampCheck cfgBase (run cfgBase PT.argIn) = true :=
  noise_amp_assigned_once_and_frozen cfgBase PT.argIn (by decide) (by decide)

/-- C4: in the generator step with `noise` and `prev` defined, if `alpha` is
zero the reconstruction branch is skipped entirely (`rec_loss` is the zero
tensor, `Z_opt = z_opt`, no extra backward pass, trace unchanged); if
`alpha` is nonzero then `Z_opt = noise_amp * z_opt + z_prev`, the
reconstruction loss is `alpha * MSE(G(Z_opt, z_prev), real)`, and it is
backpropagated as an additional loss term (recorded backward event). -/
theorem generator_reconstruction_branch (cfg : Cfg) (s : St) (n : FT) (p : PT)
    (hn : s.noise = some n) (hp : s.prev = some p) :
    (cfg.alpha = 0 → gStep cfg s = Except.ok { s with
        fake := some (FT.gen n (FT.pure p))
        recLoss := some RL.zero
        zOptV := some (FT.pure s.zopt) }) ∧
    (∀ a zp, cfg.alpha ≠ 0 → s.amp = some a → s.zprev = some zp →
      gStep cfg s = Except.ok { s with
        fake := some (FT.gen n (FT.pure p))
        zOptV := some (FT.combine a (FT.pure s.zopt) (FT.pure zp))
        recLoss := some (RL.mse cfg.alpha
          (FT.gen (FT.combine a (FT.pure s.zopt) (FT.pure zp)) (FT.pure zp)) PT.real)
        trace := Event.backwardRec (RL.mse cfg.alpha
            (FT.gen (FT.combine a (FT.pure s.zopt) (FT.pure zp)) (FT.pure zp)) PT.real)
          :: Event.ampRead Site.zOptC a :: s.trace }) := by
  constructor
  · intro hal
    rw [gStep_entry cfg s n p hn hp, gStepRec_alpha0 cfg _ hal]
  · intro a zp hal ha hz
    rw [gStep_entry cfg s n p hn hp,
      gStepRec_ok cfg { s with fake := some (FT.gen n (FT.pure p)) } a zp hal ha hz]

/-- Witness for C4 at a concrete state with nonzero `alpha`. -/
theorem generator_reconstruction_branch_witness :
    gStep cfgAlpha stG = Except.ok { stG with
      fake := some (FT.gen (FT.pure PT.real) (FT.pure PT.real))
      zOptV := some (FT.combine Amp.one (FT.pure stG.zopt) (FT.pure (PT.padI PT.real)))
      recLoss := some (RL.mse cfgAlpha.alpha
        (FT.gen (FT.combine Amp.one (FT.pure stG.zopt) (FT.pure (PT.padI PT.real)))
          (FT.pure (PT.padI PT.real))) PT.real)
      trace := Event.backwardRec (RL.mse cfgAlpha.alpha
          (FT.gen (FT.combine Amp.one (FT.pure stG.zopt) (FT.pure (PT.padI PT.real)))
            (FT.pure (PT.padI PT.real))) PT.real)
        :: Event.ampRead Site.zOptC Amp.one :: stG.trace } :=
  (generator_reconstruction_branch cfgAlpha stG (FT.pure PT.real) PT.real rfl rfl).2
    Amp.one (PT.padI PT.real) (by decide) rfl rfl

/-- C5: the token-group transform is applied to a Draw-Concat output exactly
when the current scale equals the insertion scale plus one; at every other
scale (the insertion scale itself included) the output passes through
untransformed. -/
theorem token_transform_iff_insert_succ (cfg : Cfg) (t : PT) :
    (applyTT cfg t = PT.g2t t ∨ applyTT cfg t = t) ∧
    (applyTT cfg t = PT.g2t t ↔ (cfg.currentScale : ℤ) = cfg.tokenInsert + 1) := by
  unfold applyTT
  split_ifs with h
  · exact ⟨Or.inl rfl, iff_of_true rfl h⟩
  · exact ⟨Or.inr rfl, iff_of_false (fun hc => g2t_ne t hc.symm) h⟩

/-- C6: `z_opt` is initialised as a freshly drawn spatial noise tensor of
shape `[1, nc_current, nzx, nzy]` at scale 0 and as an all-zero tensor of
that shape at later scales, padded with the noise padding in both cases; it
is never reassigned: the carried state of any run still holds the initial
value, and a completed run persists exactly that tensor (which is also the
returned `z_opt`). -/
theorem z_opt_init_and_persist (cfg : Cfg) (arg : PT) :
    zOptInit cfg = (if cfg.currentScale = 0
      then PT.padN (PT.noiseDraw cfg.ncCurrent cfg.nzx cfg.nzy 0)
      else PT.padN (PT.zeros cfg.ncCurrent cfg.nzx cfg.nzy)) ∧
    onAll (fun s => decide (s.zopt = zOptInit cfg)) (run cfg arg) = true ∧
    onOk (fun s => decide (savedZopt s.trace = [zOptInit cfg])) true
      (run cfg arg) = true := by
  refine ⟨rfl, ?_, ?_⟩
  · unfold onAll
    exact decide_eq_true (run_carrier_zopt cfg arg)
  · cases hr : run cfg arg with
    | error e => rfl
    | ok s' =>
      obtain ⟨s0, he, hs⟩ := run_ok_decomp cfg arg s' hr
      have hI := epochLoop_inv cfg arg
      rw [he] at hI
      have hsf : saveFreeB s0.trace = true :=
        hI.elim (fun hA => hA.saveFree) (fun hB => hB.saveFree)
      have hz : s0.zopt = zOptInit cfg :=
        hI.elim (fun hA => hA.zopt) (fun hB => hB.zopt)
      subst hs
      refine decide_eq_true ?_
      show savedZopt (Event.saveNets :: Event.saveZopt s0.zopt :: s0.trace)
        = [zOptInit cfg]
      rw [savedZopt_saveN, savedZopt_saveZ, saveFree_savedZopt _ hsf, hz]

/-- C7: both schedulers decay multiplicatively by gamma at the two
milestones 1600 and 2500 (identical for D and G) and are stepped once per
epoch: after a completed run, each scheduler has stepped `niter` times and
its learning rate equals the configured initial rate times
`gamma ^ (number of milestones ≤ niter)`. -/
theorem lr_schedule_two_milestones (cfg : Cfg) (arg : PT) :
    onOk (fun s => decide
      (s.schedD.lastEpoch = cfg.niter ∧ s.schedG.lastEpoch = cfg.niter ∧
       s.schedD.lr = cfg.lrD * cfg.gamma ^ msCount cfg.niter ∧
       s.schedG.lr = cfg.lrG * cfg.gamma ^ msCount cfg.niter)) true
      (run cfg arg) = true := by
  cases hr : run cfg arg with
  | error e => rfl
  | ok s' =>
    obtain ⟨s0, he, hs⟩ := run_ok_decomp cfg arg s' hr
    obtain ⟨hD, hG⟩ := epochLoop_ok_sched cfg cfg.niter 0 (initSt cfg arg) s0 he
    have h1 : s0.schedD.lastEpoch = cfg.niter := by
      rw [hD]
      exact schedStepN_lastEpoch0 cfg.gamma cfg.lrD cfg.niter
    have h2 : s0.schedG.lastEpoch = cfg.niter := by
      rw [hG]
      exact schedStepN_lastEpoch0 cfg.gamma cfg.lrG cfg.niter
    have h3 : s0.schedD.lr = cfg.lrD * cfg.gamma ^ msCount cfg.niter := by
      rw [hD]
      exact schedStepN_lr cfg.gamma cfg.lrD cfg.niter
    have h4 : s0.schedG.lr = cfg.lrG * cfg.gamma ^ msCount cfg.niter := by
      rw [hG]
      exact schedStepN_lr cfg.gamma cfg.lrG cfg.niter
    subst hs
    exact decide_eq_true ⟨h1, h2, h3, h4⟩

/-- C8: checkpointing happens only in the terminal state: in a completed run
the two persistence events are the newest trace entries, the persisted
tensor is the returned `z_opt`, no other checkpoint event exists, and the
schedulers confirm all `niter` epochs ran; an aborted run carries a
state whose trace holds no checkpoint event at all. -/
theorem checkpoint_only_terminal (cfg : Cfg) (arg : PT) :
    onOk (fun s => terminalSaves s && decide (s.schedD.lastEpoch = cfg.niter)) true
      (run cfg arg) = true ∧
    onErr (fun s => saveFreeB s.trace) true (run cfg arg) = true := by
  constructor
  · cases hr : run cfg arg with
    | error e => rfl
    | ok s' =>
      obtain ⟨s0, he, hs⟩ := run_ok_decomp cfg arg s' hr
      have hI := epochLoop_inv cfg arg
      rw [he] at hI
      have hsf : saveFreeB s0.trace = true :=
        hI.elim (fun hA => hA.saveFree) (fun hB => hB.saveFree)
      obtain ⟨hD, _⟩ := epochLoop_ok_sched cfg cfg.niter 0 (initSt cfg arg) s0 he
      have h1 : s0.schedD.lastEpoch = cfg.niter := by
        rw [hD]
        exact schedStepN_lastEpoch0 cfg.gamma cfg.lrD cfg.niter
      subst hs
      show (terminalSaves { s0 with
          trace := Event.saveNets :: Event.saveZopt s0.zopt :: s0.trace } &&
        decide (({ s0 with
          trace := Event.saveNets :: Event.saveZopt s0.zopt :: s0.trace } : St).schedD.lastEpoch
            = cfg.niter)) = true
      rw [Bool.and_eq_true]
      constructor
      · show (decide (s0.zopt = ({ s0 with
            trace := Event.saveNets :: Event.saveZopt s0.zopt :: s0.trace } : St).zopt) &&
          saveFreeB s0.trace) = true
        rw [Bool.and_eq_true]
        exact ⟨decide_eq_true rfl, hsf⟩
      · exact decide_eq_true h1
  · cases hr : run cfg arg with
    | ok s' => rfl
    | error e =>
      have he := run_err_decomp cfg arg e hr
      have hI := epochLoop_inv cfg arg
      rw [he] at hI
      exact hI.elim (fun hA => hA.saveFree) (fun hB => hB.saveFree)

/-- C9: counterexample to the claim as stated: with `niter = 0` the epoch
loop never runs, so a call with `Dsteps = 0` and `Gsteps = 1` still
completes successfully — `Dsteps ≥ 1` is not required whenever
`Gsteps ≥ 1`. -/
theorem dsteps_zero_can_succeed_cx :
    cfgNoD.dsteps = 0 ∧ 1 ≤ cfgNoD.gsteps ∧
    (okSt (run cfgNoD PT.argIn)).isSome = true := by
  decide

/-- C9 (amended): a successful call requires `Dsteps ≥ 1` whenever
`niter ≥ 1`: with `Dsteps = 0` the locals `noise`, `prev`, `z_prev`, `fake`
and `rec_loss` are never assigned, so the first epoch reads an undefined
name (in the G step or in the per-epoch diagnostics) and the call
faults. -/
theorem dsteps_required_when_training (cfg : Cfg) (arg : PT)
    (hds : cfg.dsteps = 0) (hn : 1 ≤ cfg.niter) :
    okSt (run cfg arg) = none :=
  run_dsteps0_err cfg arg hds hn

/-- Witness for the amended C9 theorem: one epoch, no D-steps, aborts. -/
theorem dsteps_required_when_training_witness :
    okSt (run cfgNoDTrain PT.argIn) = none :=
  dsteps_required_when_training cfgNoDTrain PT.argIn rfl (by decide)

/-- C10: at every scale beyond the coarsest, the returned
`input_from_prev_scale` is exactly the tensor passed in, unchanged — this
holds for the carried state of completed and aborted runs alike; at scale 0
(in a run with at least one epoch and one D-step) it is replaced by a fresh
unpadded all-zero tensor of shape `[1, nc_current, nzx, nzy]`. -/
theorem input_from_prev_scale_frame (cfg : Cfg) (arg : PT) :
    (0 < cfg.currentScale →
      onAll (fun s => decide (s.inFromPrev = arg)) (run cfg arg) = true) ∧
    (cfg.currentScale = 0 → 1 ≤ cfg.dsteps → 1 ≤ cfg.niter →
      onOk (fun s => decide (s.inFromPrev = PT.zeros cfg.ncCurrent cfg.nzx cfg.nzy))
        true (run cfg arg) = true) := by
  constructor
  · intro hsc
    unfold onAll
    exact decide_eq_true (run_carrier_ifp_pos cfg arg hsc)
  · intro hsc hd hn
    cases hr : run cfg arg with
    | error e => rfl
    | ok s' =>
      obtain ⟨s0, he, hs⟩ := run_ok_decomp cfg arg s' hr
      have hB := epochLoop_invB cfg arg hd hn
      rw [he] at hB
      subst hs
      exact decide_eq_true (hB.ifpZero hsc)

/-- Sanity: the minimal scale-0 configuration completes successfully, so the
success-side checks above are not vacuous. -/
theorem run_cfgBase_ok : (okSt (run cfgBase PT.argIn)).isSome = true := by
  decide

end SonicGAN
